import Mathlib

/-!
Shallow embedding of `HundredPrisoners.py` (functions `do_simulation` and
`vary_parameters`) and proofs about it.

Modelling choices:
* The global numpy pseudo-random generator is modelled by two data: an
  abstract PRNG `prng : ℕ → ℕ → ℕ` mapping a seed to the stream of draws it
  determines (`np.random.seed(seed)` followed by successive
  `np.random.randint(N)` calls is a pure function of the seed), and an
  `ambient : ℕ → ℕ` stream standing for whatever state the process-wide
  generator happens to carry when the call does not seed it.  A draw on day
  `d` is the stream's value at `d`, reduced `% N` so that it lies in
  `[0, N)` as `np.random.randint(N)` guarantees.
* The unbounded `while` loop is run on explicit fuel; `none` means the loop
  was still running after `fuel` simulated days (in particular it models
  non-termination when proved for every fuel).
* `K = 0` makes the Python code raise `ZeroDivisionError` at `d % K`; the
  embedding returns `none` (no result) in that case.
* The Python `assert np.sum(visited_warden) == N` failing raises
  `AssertionError`; the embedding returns `SimResult.assertFail` carrying
  the visitation record.
-/

namespace HundredPrisoners

/-- Mutable state of one simulated trial of `do_simulation`: the knowledge
matrix `seen`, the visitation record `visited_warden`, the day counter `d`
and the shared signal `light_on`. -/
structure SimState where
  seen : Nat → Nat → Bool
  visited_warden : Nat → Bool
  d : Nat
  light_on : Bool

/-- Row sum `np.sum(seen, 1)[i]`: number of true entries in row `i` of the
`N`-by-`N` matrix. -/
def rowSum (N : Nat) (seen : Nat → Nat → Bool) (i : Nat) : Nat :=
  (List.range N).countP (fun j => seen i j)

/-- `np.max(np.sum(seen, 1))`: the largest row sum of the matrix. -/
def maxRowSum (N : Nat) (seen : Nat → Nat → Bool) : Nat :=
  ((List.range N).map (rowSum N seen)).foldr max 0

/-- `np.sum(seen)`: total number of true entries of the matrix. -/
def totalSum (N : Nat) (seen : Nat → Nat → Bool) : Nat :=
  ((List.range N).map (rowSum N seen)).sum

/-- Initial state: `seen = np.eye(N)`, `visited_warden = np.zeros(N)`,
`d = 0`, `light_on = False`. -/
def initState (N : Nat) : SimState :=
  { seen := fun i j => i == j
    visited_warden := fun _ => false
    d := 0
    light_on := false }

/-- The loop guard of `do_simulation`:
`np.max(np.sum(seen, 1)) == (N-1)` (the `while` continues while this is
false). -/
def stopCond (N : Nat) (seen : Nat → Nat → Bool) : Bool :=
  maxRowSum N seen == N - 1

/-- One iteration of the `while` body of `do_simulation` for population `N`,
rotation period `K` and draw stream `draws`:
`x = int(np.mod(np.floor(d/K), N))`; `with_warden = np.random.randint(N)`;
mark `visited_warden[with_warden] = 1`; if `with_warden == x` set
`light_on = True`, else if `light_on` set `seen[with_warden, x] = 1`;
if `d % K == K - 1` reset `light_on = False`; finally `d += 1`. -/
def step (N K : Nat) (draws : Nat → Nat) (s : SimState) : SimState :=
  let x := (s.d / K) % N
  let with_warden := draws s.d % N
  { seen :=
      if with_warden = x then s.seen
      else if s.light_on then
        fun i j => if i == with_warden && j == x then true else s.seen i j
      else s.seen
    visited_warden := fun i => if i == with_warden then true else s.visited_warden i
    d := s.d + 1
    light_on :=
      if s.d % K = K - 1 then false
      else if with_warden = x then true else s.light_on }

/-- The `while` loop of `do_simulation`, run on explicit fuel: the guard is
checked before each day; `none` means the loop is still running after `fuel`
days. -/
def loop (N K : Nat) (draws : Nat → Nat) : Nat → SimState → Option SimState
  | 0, s => if stopCond N s.seen then some s else none
  | fuel + 1, s =>
      if stopCond N s.seen then some s
      else loop N K draws fuel (step N K draws s)

/-- The record `{'d': d, 'coverage': coverage, 'seen': seen}` returned by a
successful `do_simulation` call. -/
structure TrialOutcome where
  d : Nat
  coverage : ℚ
  seen : List (List Bool)
deriving DecidableEq, Repr

/-- Result of one `do_simulation` call that left the `while` loop:
either the returned record, or the `AssertionError` raised by
`assert np.sum(visited_warden) == N` (carrying the visitation record). -/
inductive SimResult where
  | ok : TrialOutcome → SimResult
  | assertFail : List Bool → SimResult
deriving DecidableEq, Repr

/-- The `N`-by-`N` matrix materialised row by row. -/
def matToList (N : Nat) (seen : Nat → Nat → Bool) : List (List Bool) :=
  (List.range N).map fun i => (List.range N).map fun j => seen i j

/-- The visitation record materialised. -/
def visitedList (N : Nat) (v : Nat → Bool) : List Bool :=
  (List.range N).map v

/-- `np.sum(visited_warden)`: how many agents were visitors at least once. -/
def visitedCount (N : Nat) (v : Nat → Bool) : Nat :=
  (List.range N).countP v

/-- The code after the `while` loop:
`assert np.sum(visited_warden) == N` then
`coverage = 100*np.sum(seen)/float(seen.size)` and the returned record.
The exact rational quotient is written `mkRat` so that it evaluates on
concrete inputs; `Rat.mkRat_eq_div` identifies it with the division
`(100 * totalSum) / (N * N)` in `ℚ`. -/
def finalize (N : Nat) (s : SimState) : SimResult :=
  if visitedCount N s.visited_warden = N then
    SimResult.ok
      { d := s.d
        coverage := mkRat (100 * (totalSum N s.seen : Int)) (N * N)
        seen := matToList N s.seen }
  else
    SimResult.assertFail (visitedList N s.visited_warden)

/-- `do_simulation(seed, N, K)`.  `if seed: np.random.seed(seed)` tests the
truthiness of `seed`, so the PRNG stream `prng seed` is used exactly when
`seed` is present and nonzero; otherwise the ambient stream of the unseeded
global generator is used.  `K = 0` raises `ZeroDivisionError` in Python
(`d % K`), modelled as `none`. -/
def doSimulation (seed : Option Nat) (N K : Nat) (prng : Nat → Nat → Nat)
    (ambient : Nat → Nat) (fuel : Nat) : Option SimResult :=
  let draws :=
    match seed with
    | some v => if v ≠ 0 then prng v else ambient
    | none => ambient
  if K = 0 then none
  else (loop N K draws fuel (initState N)).map (finalize N)

/-- One cell of `vary_parameters`: `do_simulation(K=K)` with the default
population `N = 100` and no seed, giving `res['d']/365.0`; `none` when the
trial did not return a record (still running, or `AssertionError`, which is
fatal to the whole sweep). -/
def runTrialYears (K : Nat) (ambient : Nat → Nat) (fuel : Nat) : Option ℚ :=
  match doSimulation none 100 K (fun _ _ => 0) ambient fuel with
  | some (SimResult.ok o) => some ((o.d : ℚ) / 365)
  | _ => none

/-- Evaluate `f` on every element of a list, succeeding only when every call
succeeds (a loop over trials aborts as a whole when one trial raises). -/
def seqOpt {α β : Type} (f : α → Option β) : List α → Option (List β)
  | [] => some []
  | a :: l =>
      match f a, seqOpt f l with
      | some b, some r => some (b :: r)
      | _, _ => none

/-- `vary_parameters(NTrials, Ks)`: for each trial index `t` and each index
`i` into `Ks`, cell `(t, i)` of the results table is `res['d']/365.0` of an
independent `do_simulation(K=Ks[i])` run.  `streams i t` is the ambient
random stream consumed by that run (the runs are independent and unseeded).
`none` when some trial fails or is still running. -/
def varyParameters (NTrials : Nat) (Ks : List Nat)
    (streams : Nat → Nat → Nat → Nat) (fuel : Nat) : Option (List (List ℚ)) :=
  seqOpt
    (fun t =>
      seqOpt (fun i => runTrialYears (Ks.getD i 0) (streams i t) fuel)
        (List.range Ks.length))
    (List.range NTrials)

/-! ### Concrete fixtures

Finite draw sequences used to evaluate the embedding on concrete inputs
(a stream is the sequence padded with zeros). -/

/-- Draws 0 then 1: with `N = 3, K = 2` the observer of window 0 (agent 0)
visits on day 0, agent 1 reads the signal on day 1, and the trial stops. -/
def ambC : Nat → Nat := fun d => [0, 1].getD d 0

/-- Draws 1, 0, 1, 2: with `N = 3, K = 2` the trial stops after 4 days with
every agent visited. -/
def ambA : Nat → Nat := fun d => [1, 0, 1, 2].getD d 0

/-- Draws 1, 0, 2, 2, 2, 0: with `N = 3, K = 2` the trial stops after 6 days
with every agent visited. -/
def ambB : Nat → Nat := fun d => [1, 0, 2, 2, 2, 0].getD d 0

/-- A trivial PRNG placeholder for runs whose seeded stream is irrelevant. -/
def prngZ : Nat → Nat → Nat := fun _ _ => 0

/-- Number of true entries of a materialised boolean matrix. -/
def trueCount (m : List (List Bool)) : Nat :=
  (m.map (fun r => r.countP id)).sum

/-- The outcome of the run `doSimulation none 3 2 prngZ ambA 20`: 4 days,
one off-diagonal sighting, coverage `400/9` percent. -/
def outcomeA : TrialOutcome :=
  { d := 4
    coverage := mkRat 400 9
    seen := [[true, false, false], [false, true, false], [false, true, true]] }

/-! ### Basic lemmas about the per-day transition -/

theorem step_d (N K : Nat) (draws : Nat → Nat) (s : SimState) :
    (step N K draws s).d = s.d + 1 := rfl

theorem step_seen_mono (N K : Nat) (draws : Nat → Nat) (s : SimState)
    (i j : Nat) (h : s.seen i j = true) :
    (step N K draws s).seen i j = true := by
  unfold step
  dsimp only
  split
  · exact h
  · split
    · dsimp only
      split
      · rfl
      · exact h
    · exact h

theorem iter_d (N K : Nat) (draws : Nat → Nat) :
    ∀ n, ((step N K draws)^[n] (initState N)).d = n := by
  intro n
  induction n with
  | zero => rfl
  | succ n ih => rw [Function.iterate_succ_apply', step_d, ih]

theorem iter_seen_mono (N K : Nat) (draws : Nat → Nat) (i j : Nat) :
    ∀ n m, n ≤ m →
      ((step N K draws)^[n] (initState N)).seen i j = true →
      ((step N K draws)^[m] (initState N)).seen i j = true := by
  intro n m hnm h
  obtain ⟨k, rfl⟩ := Nat.le.dest hnm
  clear hnm
  induction k with
  | zero => exact h
  | succ k ih =>
      rw [← Nat.add_assoc, Function.iterate_succ_apply']
      exact step_seen_mono _ _ _ _ _ _ ih

theorem initState_seen_diag (N i : Nat) : (initState N).seen i i = true := by
  simp [initState]

theorem iter_seen_diag (N K : Nat) (draws : Nat → Nat) (n i : Nat) :
    ((step N K draws)^[n] (initState N)).seen i i = true :=
  iter_seen_mono N K draws i i 0 n (Nat.zero_le n) (initState_seen_diag N i)

/-! ### Row sums of the initial matrix and the stopping condition at day 0 -/

theorem countP_beq_range (N i : Nat) (h : i < N) :
    (List.range N).countP (fun j => i == j) = 1 := by
  induction N with
  | zero => omega
  | succ N ih =>
      rw [List.range_succ, List.countP_append]
      by_cases hi : i = N
      · subst hi
        have h0 : (List.range i).countP (fun j => i == j) = 0 := by
          rw [List.countP_eq_zero]
          intro a ha
          have : a < i := List.mem_range.mp ha
          simp only [beq_iff_eq]
          omega
        simp [h0]
      · have h1 : i < N := by omega
        rw [ih h1]
        have h0 : ([N].countP (fun j => i == j)) = 0 := by
          rw [List.countP_eq_zero]
          intro a ha
          simp only [List.mem_singleton] at ha
          subst ha
          simp only [beq_iff_eq]
          omega
        omega

theorem rowSum_initState (N i : Nat) (h : i < N) :
    rowSum N (initState N).seen i = 1 := by
  unfold rowSum initState
  exact countP_beq_range N i h

theorem rowSum_le (N : Nat) (seen : Nat → Nat → Bool) (i : Nat) :
    rowSum N seen i ≤ N := by
  unfold rowSum
  calc (List.range N).countP (fun j => seen i j) ≤ (List.range N).length :=
        List.countP_le_length _
    _ = N := List.length_range N

theorem foldr_max_replicate_one :
    ∀ n, (List.replicate n 1).foldr max 0 = if n = 0 then 0 else 1 := by
  intro n
  induction n with
  | zero => rfl
  | succ n ih => rw [List.replicate_succ, List.foldr_cons, ih]; split <;> simp

theorem maxRowSum_initState (N : Nat) (hN : 1 ≤ N) :
    maxRowSum N (initState N).seen = 1 := by
  unfold maxRowSum
  have hrepl : (List.range N).map (rowSum N (initState N).seen)
      = List.replicate N 1 := by
    rw [List.eq_replicate_iff]
    constructor
    · rw [List.length_map, List.length_range]
    · intro b hb
      obtain ⟨i, hi, rfl⟩ := List.mem_map.mp hb
      exact rowSum_initState N i (List.mem_range.mp hi)
  rw [hrepl, foldr_max_replicate_one, if_neg (by omega : ¬ N = 0)]

theorem stopCond_initState (N : Nat) (hN : 3 ≤ N) :
    stopCond N (initState N).seen = false := by
  unfold stopCond
  rw [maxRowSum_initState N (by omega)]
  simp only [beq_eq_false_iff_ne, ne_eq]
  omega

/-! ### The loop and the day counter -/

theorem loop_d_le (N K : Nat) (draws : Nat → Nat) :
    ∀ fuel s t, loop N K draws fuel s = some t → s.d ≤ t.d := by
  intro fuel
  induction fuel with
  | zero =>
      intro s t h
      unfold loop at h
      split at h
      · cases h; exact Nat.le_refl _
      · cases h
  | succ fuel ih =>
      intro s t h
      unfold loop at h
      split at h
      · cases h; exact Nat.le_refl _
      · have := ih (step N K draws s) t h
        rw [step_d] at this
        omega

theorem loop_initState_d_pos (N K : Nat) (draws : Nat → Nat)
    (hstop : stopCond N (initState N).seen = false) :
    ∀ fuel t, loop N K draws fuel (initState N) = some t → 1 ≤ t.d := by
  intro fuel t h
  cases fuel with
  | zero =>
      unfold loop at h
      rw [hstop] at h
      cases h
  | succ fuel =>
      unfold loop at h
      rw [hstop] at h
      simp only [Bool.false_eq_true, if_false] at h
      have := loop_d_le N K draws fuel _ t h
      rw [step_d] at this
      exact this

/-! ### Division by the rotation period at a window boundary -/

theorem succ_div_rotation (K n : Nat) (hK : 0 < K) :
    (n + 1) / K = if n % K = K - 1 then n / K + 1 else n / K := by
  have hrw : n + 1 = (n % K + 1) + K * (n / K) := by
    have := Nat.div_add_mod n K
    omega
  have hlt : n % K < K := Nat.mod_lt _ hK
  rw [hrw, Nat.add_mul_div_left _ _ hK]
  split
  · next h =>
      have hKeq : n % K + 1 = K := by omega
      rw [hKeq, Nat.div_self hK]
      omega
  · next h =>
      have : n % K + 1 < K := by omega
      rw [Nat.div_eq_of_lt this]
      omega

/-- Invariant behind the window-reset design: whenever the shared signal is
on at the start of day `n`, the observer of the current rotation window was
drawn as visitor on a strictly earlier day of the same window.  The reset at
`d % K == K - 1` makes the signal false across every window boundary. -/
theorem light_on_inv (N K : Nat) (draws : Nat → Nat) (hK : 0 < K) :
    ∀ n, ((step N K draws)^[n] (initState N)).light_on = true →
      ∃ dp, dp < n ∧ dp / K = n / K ∧ draws dp % N = (n / K) % N := by
  intro n
  induction n with
  | zero => intro h; exact absurd h (by simp [initState])
  | succ n ih =>
      intro h
      rw [Function.iterate_succ_apply'] at h
      have hstep : (step N K draws ((step N K draws)^[n] (initState N))).light_on
          = if ((step N K draws)^[n] (initState N)).d % K = K - 1 then false
            else if draws ((step N K draws)^[n] (initState N)).d % N
                = (((step N K draws)^[n] (initState N)).d / K) % N then true
            else ((step N K draws)^[n] (initState N)).light_on := rfl
      rw [hstep, iter_d] at h
      by_cases hb : n % K = K - 1
      · rw [if_pos hb] at h
        cases h
      · rw [if_neg hb] at h
        have hdiv : (n + 1) / K = n / K := by
          rw [succ_div_rotation K n hK, if_neg hb]
        by_cases hw : draws n % N = n / K % N
        · exact ⟨n, by omega, by omega, by rw [hdiv]; exact hw⟩
        · rw [if_neg hw] at h
          obtain ⟨dp, h1, h2, h3⟩ := ih h
          exact ⟨dp, by omega, by omega, by rw [hdiv]; exact h3⟩

/-! ### The degenerate population `N = 1`: the loop can never stop -/

theorem stopCond_one (s : SimState) (h : s.seen 0 0 = true) :
    stopCond 1 s.seen = false := by
  unfold stopCond maxRowSum rowSum
  have hrange : List.range 1 = [0] := by
    rw [show (1 : Nat) = 0 + 1 from rfl, List.range_succ]
    rfl
  rw [hrange]
  simp [h]

theorem loop_one_none (K : Nat) (draws : Nat → Nat) :
    ∀ fuel s, s.seen 0 0 = true → loop 1 K draws fuel s = none := by
  intro fuel
  induction fuel with
  | zero =>
      intro s h
      unfold loop
      rw [stopCond_one s h]
      rfl
  | succ fuel ih =>
      intro s h
      unfold loop
      rw [stopCond_one s h]
      simp only [Bool.false_eq_true, if_false]
      exact ih _ (step_seen_mono _ _ _ _ _ _ h)

/-! ### Seeding: truthiness of the seed argument -/

theorem doSimulation_seeded (prng : Nat → Nat → Nat) (v N K : Nat)
    (amb1 amb2 : Nat → Nat) (fuel : Nat) (hv : v ≠ 0) :
    doSimulation (some v) N K prng amb1 fuel
      = doSimulation (some v) N K prng amb2 fuel := by
  unfold doSimulation
  simp only [hv, if_true, ne_eq, not_false_eq_true]

theorem doSimulation_seed_zero (N K : Nat) (prng : Nat → Nat → Nat)
    (amb : Nat → Nat) (fuel : Nat) :
    doSimulation (some 0) N K prng amb fuel
      = doSimulation none N K prng amb fuel := by
  unfold doSimulation
  simp

/-! ### Counting true entries of the returned matrix -/

theorem trueCount_matToList (N : Nat) (seen : Nat → Nat → Bool) :
    trueCount (matToList N seen) = totalSum N seen := by
  unfold trueCount matToList totalSum
  rw [List.map_map]
  congr 1
  apply List.map_congr_left
  intro i hi
  simp only [Function.comp_apply]
  rw [List.countP_map]
  rfl

theorem totalSum_le (N : Nat) (seen : Nat → Nat → Bool) :
    totalSum N seen ≤ N * N := by
  unfold totalSum
  have h := List.sum_le_card_nsmul ((List.range N).map (rowSum N seen)) N ?bound
  · rw [List.length_map, List.length_range, smul_eq_mul] at h
    exact h
  case bound =>
    intro x hx
    obtain ⟨i, hi, rfl⟩ := List.mem_map.mp hx
    exact rowSum_le N seen i

theorem coverage_formula (N : Nat) (t : Nat) (ht : t ≤ N * N) :
    0 ≤ (100 * t : ℚ) / ((N : ℚ) * N) ∧ (100 * t : ℚ) / ((N : ℚ) * N) ≤ 100 := by
  constructor
  · apply div_nonneg
    · positivity
    · positivity
  · rcases Nat.eq_zero_or_pos N with hN | hN
    · subst hN
      norm_num
    · have hpos : (0 : ℚ) < (N : ℚ) * N := by positivity
      rw [div_le_iff₀ hpos]
      have htq : (t : ℚ) ≤ (N : ℚ) * N := by exact_mod_cast ht
      nlinarith

/-! ### The sweep loop -/

theorem seqOpt_length {α β : Type} (f : α → Option β) :
    ∀ l r, seqOpt f l = some r → r.length = l.length := by
  intro l
  induction l with
  | nil =>
      intro r h
      unfold seqOpt at h
      cases h
      rfl
  | cons a l ih =>
      intro r h
      unfold seqOpt at h
      match hfa : f a, hrest : seqOpt f l with
      | some b, some rl =>
          rw [hfa, hrest] at h
          cases h
          simp only [List.length_cons, ih rl hrest]
      | some b, none => rw [hfa, hrest] at h; cases h
      | none, some rl => rw [hfa, hrest] at h; cases h
      | none, none => rw [hfa, hrest] at h; cases h

theorem seqOpt_getElem? {α β : Type} (f : α → Option β) :
    ∀ l r, seqOpt f l = some r → ∀ i : Nat, r[i]? = l[i]?.bind f := by
  intro l
  induction l with
  | nil =>
      intro r h i
      unfold seqOpt at h
      cases h
      simp
  | cons a l ih =>
      intro r h i
      unfold seqOpt at h
      match hfa : f a, hrest : seqOpt f l with
      | some b, some rl =>
          rw [hfa, hrest] at h
          cases h
          cases i with
          | zero => simp [hfa]
          | succ i => simp only [List.getElem?_cons_succ]; exact ih rl hrest i
      | some b, none => rw [hfa, hrest] at h; cases h
      | none, some rl => rw [hfa, hrest] at h; cases h
      | none, none => rw [hfa, hrest] at h; cases h

theorem seqOpt_mem {α β : Type} (f : α → Option β) :
    ∀ l r, seqOpt f l = some r → ∀ b ∈ r, ∃ a ∈ l, f a = some b := by
  intro l
  induction l with
  | nil =>
      intro r h b hb
      unfold seqOpt at h
      cases h
      cases hb
  | cons a l ih =>
      intro r h b hb
      unfold seqOpt at h
      match hfa : f a, hrest : seqOpt f l with
      | some c, some rl =>
          rw [hfa, hrest] at h
          cases h
          rcases List.mem_cons.mp hb with hb | hb
          · exact ⟨a, List.mem_cons_self a l, by rw [hfa, hb]⟩
          · obtain ⟨x, hx, hfx⟩ := ih rl hrest b hb
            exact ⟨x, List.mem_cons_of_mem a hx, hfx⟩
      | some c, none => rw [hfa, hrest] at h; cases h
      | none, some rl => rw [hfa, hrest] at h; cases h
      | none, none => rw [hfa, hrest] at h; cases h

/-! ### Eliminating a successful simulation result -/

theorem doSimulation_ok (seed : Option Nat) (N K : Nat)
    (prng : Nat → Nat → Nat) (amb : Nat → Nat) (fuel : Nat) (o : TrialOutcome)
    (h : doSimulation seed N K prng amb fuel = some (SimResult.ok o)) :
    ∃ draws s, K ≠ 0 ∧ loop N K draws fuel (initState N) = some s ∧
      finalize N s = SimResult.ok o := by
  unfold doSimulation at h
  by_cases hK : K = 0
  · rw [if_pos hK] at h
    cases h
  · rw [if_neg hK] at h
    obtain ⟨s, hs, hfin⟩ := Option.map_eq_some'.mp h
    exact ⟨_, s, hK, hs, hfin⟩

theorem finalize_ok (N : Nat) (s : SimState) (o : TrialOutcome)
    (h : finalize N s = SimResult.ok o) :
    o.d = s.d ∧ o.coverage = (100 * totalSum N s.seen : ℚ) / ((N : ℚ) * N) ∧
      o.seen = matToList N s.seen := by
  unfold finalize at h
  split at h
  · cases h
    refine ⟨rfl, ?_, rfl⟩
    show mkRat (100 * (totalSum N s.seen : Int)) (N * N) = _
    rw [Rat.mkRat_eq_div]
    push_cast
    ring
  · cases h

theorem runTrialYears_some (K : Nat) (amb : Nat → Nat) (fuel : Nat) (q : ℚ)
    (h : runTrialYears K amb fuel = some q) :
    ∃ o, doSimulation none 100 K (fun _ _ => 0) amb fuel
        = some (SimResult.ok o) ∧ q = (o.d : ℚ) / 365 ∧ 1 ≤ o.d ∧ 0 < q := by
  unfold runTrialYears at h
  cases hres : doSimulation none 100 K (fun _ _ => 0) amb fuel with
  | none =>
      rw [hres] at h
      cases h
  | some r =>
      rw [hres] at h
      cases r with
      | ok o =>
          change some ((o.d : ℚ) / 365) = some q at h
          cases h
          obtain ⟨draws, s, hK, hloop, hfin⟩ :=
            doSimulation_ok none 100 K (fun _ _ => 0) amb fuel o hres
          obtain ⟨hd, _, _⟩ := finalize_ok 100 s o hfin
          have hpos : 1 ≤ s.d :=
            loop_initState_d_pos 100 K draws
              (stopCond_initState 100 (by omega)) fuel s hloop
          have hod : 1 ≤ o.d := by omega
          refine ⟨o, rfl, rfl, hod, ?_⟩
          have : (0 : ℚ) < (o.d : ℚ) := by exact_mod_cast Nat.lt_of_lt_of_le Nat.zero_lt_one hod
          positivity
      | assertFail v =>
          change (none : Option ℚ) = some q at h
          cases h

/-! ### Two unseeded runs that disagree -/

theorem runs_differ_seed_zero :
    doSimulation (some 0) 3 2 prngZ ambA 20
      ≠ doSimulation (some 0) 3 2 prngZ ambB 20 := by decide

/-! ### The claims -/

/-- C1.  The claim says the trial terminates exactly when some agent has
`N - 1` true entries excluding the diagonal.  In the code the loop guard
`np.max(np.sum(seen, 1)) == N - 1` counts the whole row, diagonal included:
with `N = 3, K = 2` and draws `0, 1`, the loop stops after 2 days with
terminal matrix `[[1,0,0],[1,1,0],[0,0,1]]`, whose row 1 has total 2 = N - 1
but only one true entry (= N - 2) excluding the diagonal. -/
theorem c1_termination_counts_diagonal :
    (loop 3 2 ambC 10 (initState 3)).map (fun s => matToList 3 s.seen)
        = some [[true, false, false], [true, true, false], [false, false, true]] ∧
    (loop 3 2 ambC 10 (initState 3)).map (fun s => rowSum 3 s.seen 1) = some 2 ∧
    (loop 3 2 ambC 10 (initState 3)).map SimState.d = some 2 := by decide

/-- C2.  The claim says the post-termination assertion
`assert np.sum(visited_warden) == N` can never fire.  It can: with
`N = 3, K = 2` and draws `0, 1` the trial stops after 2 days with agent 2
never drawn, and `do_simulation` raises the assertion with visitation
record `[1, 1, 0]`. -/
theorem c2_assert_reachable :
    doSimulation none 3 2 prngZ ambC 10
      = some (SimResult.assertFail [true, true, false]) := by decide

/-- C3 counterexample.  `do_simulation` with `N = 1, K = 10` does not fail
fast with an invalid-configuration error: it allocates simulation state,
steps it day after day (after 5 days the day counter is 5), and after 100
simulated days has produced neither a result nor an error. -/
theorem c3_no_failfast_counterexample :
    ((step 1 10 (fun _ => 0))^[5] (initState 1)).d = 5 ∧
    doSimulation none 1 10 prngZ (fun _ => 0) 100 = none := by decide

/-- C3 (amended).  `do_simulation` performs no configuration validation:
called with `N = 1, K = 10` it enters the simulation loop and never
terminates — for every seed, PRNG, ambient stream and day budget it has
produced neither a record nor an error.  (With `N = 1` the only agent is
always its own observer, `seen` stays the 1-by-1 identity, and the guard
`max row sum == N - 1 = 0` is never satisfied.) -/
theorem c3_no_validation_never_returns :
    ∀ (seed : Option Nat) (prng : Nat → Nat → Nat) (amb : Nat → Nat)
      (fuel : Nat), doSimulation seed 1 10 prng amb fuel = none := by
  intro seed prng amb fuel
  have key : ∀ dr : Nat → Nat,
      (if (10 : Nat) = 0 then none
       else (loop 1 10 dr fuel (initState 1)).map (finalize 1))
        = (none : Option SimResult) := by
    intro dr
    rw [if_neg (by omega : ¬ (10 : Nat) = 0),
      loop_one_none 10 dr fuel (initState 1) (initState_seen_diag 1 0)]
    rfl
  exact key _

/-- C4 counterexample.  At `N = 2` the stopping condition is already met at
day 0 (the identity matrix has a row sum of 1 = N - 1), so the trial
simulates zero days, and the subsequent assertion fires with an all-false
visitation record. -/
theorem c4_day_zero_counterexample :
    stopCond 2 (initState 2).seen = true ∧
    (loop 2 1 (fun _ => 0) 10 (initState 2)).map SimState.d = some 0 ∧
    doSimulation none 2 1 prngZ (fun _ => 0) 10
      = some (SimResult.assertFail [false, false]) := by decide

/-- C4 (amended).  For every `N ≥ 3` and every `K`, the stopping condition
is unmet at day 0 on the identity-only matrix, so every terminating trial
simulates at least one day and reports `d ≥ 1`.  (At `N = 2` the identity
matrix already meets the condition at day 0.) -/
theorem c4_at_least_one_day :
    ∀ (N K : Nat) (draws : Nat → Nat) (fuel d : Nat), 3 ≤ N →
      stopCond N (initState N).seen = false ∧
      ((loop N K draws fuel (initState N)).map SimState.d = some d → 1 ≤ d) := by
  intro N K draws fuel d hN
  refine ⟨stopCond_initState N hN, ?_⟩
  intro h
  obtain ⟨t, hloop, hd⟩ := Option.map_eq_some'.mp h
  have := loop_initState_d_pos N K draws (stopCond_initState N hN) fuel t hloop
  omega

/-- C4 witness: the amended statement applied at `N = 3, K = 2` with draws
`0, 1` and fuel 10, where the loop stops after day 2. -/
theorem c4_at_least_one_day_witness :
    (3 ≤ 3) ∧
    (stopCond 3 (initState 3).seen = false ∧
      ((loop 3 2 ambC 10 (initState 3)).map SimState.d = some 2 → 1 ≤ 2)) :=
  ⟨by omega, c4_at_least_one_day 3 2 ambC 10 2 (by omega)⟩

/-- C5 counterexample.  With `seed = 0` the guard `if seed:` skips seeding,
so the run consumes the ambient generator state: two runs with identical
seed 0, `N = 3`, `K = 2` but different ambient streams return different
outcomes (4 elapsed days versus 6). -/
theorem c5_seed_zero_counterexample :
    doSimulation (some 0) 3 2 prngZ ambA 20
      ≠ doSimulation (some 0) 3 2 prngZ ambB 20 :=
  runs_differ_seed_zero

/-- C5 (amended).  For every provided nonzero seed and every `N`, `K`, two
independent runs of `do_simulation` with the identical seed, `N` and `K`
produce identical results — elapsed days, `seen` matrix and coverage —
whatever the ambient generator state of either run, because the draw
sequence is then fully determined by the seed.  (Seed 0 is excluded: the
truthiness guard `if seed:` skips seeding for it.) -/
theorem c5_nonzero_seed_deterministic :
    ∀ (prng : Nat → Nat → Nat) (v N K : Nat) (amb1 amb2 : Nat → Nat)
      (fuel : Nat), v ≠ 0 →
      doSimulation (some v) N K prng amb1 fuel
        = doSimulation (some v) N K prng amb2 fuel :=
  fun prng v N K amb1 amb2 fuel hv =>
    doSimulation_seeded prng v N K amb1 amb2 fuel hv

/-- C5 witness: the amended statement applied at seed 1, `N = 3, K = 2`
with two different ambient streams. -/
theorem c5_nonzero_seed_deterministic_witness :
    ((1 : Nat) ≠ 0) ∧
    doSimulation (some 1) 3 2 prngZ ambA 5 = doSimulation (some 1) 3 2 prngZ ambB 5 :=
  ⟨by omega, c5_nonzero_seed_deterministic prngZ 1 3 2 ambA ambB 5 (by omega)⟩

/-- C6.  `seed = 0` leaves the generator unseeded because `if seed:` tests
truthiness, not presence: a run with seed 0 behaves exactly as a run with
no seed at all (it consumes the ambient stream), two seed-0 runs with
identical `N, K` can disagree, while for any nonzero seed the ambient
state is irrelevant and two runs agree. -/
theorem c6_seed_zero_truthiness :
    (∀ (N K : Nat) (prng : Nat → Nat → Nat) (amb : Nat → Nat) (fuel : Nat),
      doSimulation (some 0) N K prng amb fuel
        = doSimulation none N K prng amb fuel) ∧
    doSimulation (some 0) 3 2 prngZ ambA 20
      ≠ doSimulation (some 0) 3 2 prngZ ambB 20 ∧
    (∀ (v N K : Nat) (prng : Nat → Nat → Nat) (amb1 amb2 : Nat → Nat)
      (fuel : Nat), v ≠ 0 →
      doSimulation (some v) N K prng amb1 fuel
        = doSimulation (some v) N K prng amb2 fuel) :=
  ⟨fun N K prng amb fuel => doSimulation_seed_zero N K prng amb fuel,
   runs_differ_seed_zero,
   fun v N K prng amb1 amb2 fuel hv =>
     doSimulation_seeded prng v N K amb1 amb2 fuel hv⟩

/-- C7.  Throughout every trial the diagonal of `seen` stays true and the
matrix is monotone: after any `n` days every diagonal entry is true, and a
true entry stays true on every later day `m ≥ n`. -/
theorem c7_diag_and_monotone :
    ∀ (N K : Nat) (draws : Nat → Nat) (n m i j : Nat), n ≤ m →
      ((step N K draws)^[n] (initState N)).seen i i = true ∧
      (((step N K draws)^[n] (initState N)).seen i j = true →
        ((step N K draws)^[m] (initState N)).seen i j = true) :=
  fun N K draws n m i j hnm =>
    ⟨iter_seen_diag N K draws n i, iter_seen_mono N K draws i j n m hnm⟩

/-- C7 witness: the invariant applied at `N = 3, K = 2`, draws `0, 1`,
days 1 ≤ 2, entry (1, 0). -/
theorem c7_diag_and_monotone_witness :
    (1 ≤ 2) ∧
    (((step 3 2 ambC)^[1] (initState 3)).seen 1 1 = true ∧
      (((step 3 2 ambC)^[1] (initState 3)).seen 1 0 = true →
        ((step 3 2 ambC)^[2] (initState 3)).seen 1 0 = true)) :=
  ⟨by omega, c7_diag_and_monotone 3 2 ambC 1 2 1 0 (by omega)⟩

/-- C8.  A new `seen[selected][x]` entry is recorded on day `n` only at
`selected = draws n % N`, `x = (n / K) % N`, and only if the observer `x`
of that rotation window was itself drawn as visitor on a strictly earlier
day of the same window; moreover the end-of-window reset means the signal
is never on at the first check of a window (`n % K = 0`), so no stale
signal leaks across windows. -/
theorem c8_recording_within_window :
    ∀ (N K : Nat) (draws : Nat → Nat) (n i j : Nat), 0 < K →
      ((step N K draws ((step N K draws)^[n] (initState N))).seen i j = true →
        ((step N K draws)^[n] (initState N)).seen i j = true ∨
        (i = draws n % N ∧ j = (n / K) % N ∧
          ∃ dp, dp < n ∧ dp / K = n / K ∧ draws dp % N = (n / K) % N)) ∧
      (n % K = 0 →
        ((step N K draws)^[n] (initState N)).light_on = false) := by
  intro N K draws n i j hK
  constructor
  · intro h
    have hstep : (step N K draws ((step N K draws)^[n] (initState N))).seen i j
        = if draws ((step N K draws)^[n] (initState N)).d % N
              = (((step N K draws)^[n] (initState N)).d / K) % N then
            ((step N K draws)^[n] (initState N)).seen i j
          else if ((step N K draws)^[n] (initState N)).light_on = true then
            (if (i == draws ((step N K draws)^[n] (initState N)).d % N
                  && j == (((step N K draws)^[n] (initState N)).d / K) % N)
                = true then true
             else ((step N K draws)^[n] (initState N)).seen i j)
          else ((step N K draws)^[n] (initState N)).seen i j := by
      unfold step
      dsimp only
      split
      · rfl
      · split <;> rfl
    rw [hstep, iter_d] at h
    by_cases hw : draws n % N = (n / K) % N
    · rw [if_pos hw] at h
      exact Or.inl h
    · rw [if_neg hw] at h
      by_cases hl : ((step N K draws)^[n] (initState N)).light_on = true
      · rw [if_pos hl] at h
        by_cases hij : (i == draws n % N && j == (n / K) % N) = true
        · rw [if_pos hij] at h
          rw [Bool.and_eq_true, beq_iff_eq, beq_iff_eq] at hij
          exact Or.inr ⟨hij.1, hij.2, light_on_inv N K draws hK n hl⟩
        · rw [if_neg hij] at h
          exact Or.inl h
      · rw [if_neg hl] at h
        exact Or.inl h
  · intro h0
    cases hl : ((step N K draws)^[n] (initState N)).light_on with
    | false => rfl
    | true =>
        obtain ⟨dp, h1, h2, h3⟩ := light_on_inv N K draws hK n hl
        have ha : n / K * K ≤ dp := by
          rw [← h2]
          exact Nat.div_mul_le_self dp K
        have hb : n / K * K = n := Nat.div_mul_cancel (Nat.dvd_of_mod_eq_zero h0)
        omega

/-- C8 witness: the statement applied at `N = 3, K = 2`, draws `0, 1`,
day `n = 1`, entry (1, 0): the sighting recorded on day 1 points back to
the observer visiting on day 0 of the same window. -/
theorem c8_recording_within_window_witness :
    ((0 : Nat) < 2) ∧
    (((step 3 2 ambC ((step 3 2 ambC)^[1] (initState 3))).seen 1 0 = true →
        ((step 3 2 ambC)^[1] (initState 3)).seen 1 0 = true ∨
        (1 = ambC 1 % 3 ∧ 0 = (1 / 2) % 3 ∧
          ∃ dp, dp < 1 ∧ dp / 2 = 1 / 2 ∧ ambC dp % 3 = (1 / 2) % 3)) ∧
      (1 % 2 = 0 → ((step 3 2 ambC)^[1] (initState 3)).light_on = false)) :=
  ⟨by omega, c8_recording_within_window 3 2 ambC 1 1 0 (by omega)⟩

/-- C9.  Every record returned by `do_simulation` reports a coverage that
is exactly `100 * (number of true entries of the returned seen matrix) /
N²`, and that value lies in `[0, 100]`. -/
theorem c9_coverage_exact_bounded :
    ∀ (seed : Option Nat) (N K : Nat) (prng : Nat → Nat → Nat)
      (amb : Nat → Nat) (fuel : Nat) (o : TrialOutcome),
      doSimulation seed N K prng amb fuel = some (SimResult.ok o) →
      o.coverage = 100 * (trueCount o.seen : ℚ) / ((N : ℚ) * N) ∧
      0 ≤ o.coverage ∧ o.coverage ≤ 100 := by
  intro seed N K prng amb fuel o h
  obtain ⟨draws, s, hK, hloop, hfin⟩ := doSimulation_ok seed N K prng amb fuel o h
  obtain ⟨hd, hcov, hseen⟩ := finalize_ok N s o hfin
  have ht : (trueCount o.seen : ℚ) = (totalSum N s.seen : ℚ) := by
    rw [hseen, trueCount_matToList]
  constructor
  · rw [hcov, ht]
  · rw [hcov]
    exact coverage_formula N (totalSum N s.seen) (totalSum_le N s.seen)

/-- C9 witness: the run `doSimulation none 3 2 prngZ ambA 20` returns the
record `outcomeA`, whose coverage is exactly `100 * 4 / 9` and lies in
`[0, 100]`. -/
theorem c9_coverage_exact_bounded_witness :
    doSimulation none 3 2 prngZ ambA 20 = some (SimResult.ok outcomeA) ∧
    (outcomeA.coverage
        = 100 * (trueCount outcomeA.seen : ℚ) / (((3 : Nat) : ℚ) * (3 : Nat)) ∧
      0 ≤ outcomeA.coverage ∧ outcomeA.coverage ≤ 100) :=
  ⟨by decide, c9_coverage_exact_bounded none 3 2 prngZ ambA 20 outcomeA (by decide)⟩

/-- C10.  Whenever the sweep completes, the results table has `NTrials`
rows and `|Ks|` columns, and cell `(t, i)` holds `d / 365` of the `t`-th
independent trial run with `Ks[i]` — a strictly positive value, since every
terminating trial with the default population `N = 100` simulates at least
one day. -/
theorem c10_sweep_table :
    ∀ (NTrials : Nat) (Ks : List Nat) (streams : Nat → Nat → Nat → Nat)
      (fuel : Nat),
      Option.elim (varyParameters NTrials Ks streams fuel) True (fun tbl =>
        tbl.length = NTrials ∧
        (∀ row ∈ tbl, row.length = Ks.length) ∧
        (∀ t i, t < NTrials → i < Ks.length →
          ∃ o, doSimulation none 100 (Ks.getD i 0) (fun _ _ => 0)
                (streams i t) fuel = some (SimResult.ok o) ∧ 1 ≤ o.d ∧
            (tbl.getD t []).getD i 0 = (o.d : ℚ) / 365 ∧
            0 < (tbl.getD t []).getD i 0)) := by
  intro NTrials Ks streams fuel
  cases htbl : varyParameters NTrials Ks streams fuel with
  | none => exact trivial
  | some tbl =>
      simp only [Option.elim]
      unfold varyParameters at htbl
      have hlen : tbl.length = NTrials := by
        rw [seqOpt_length _ _ _ htbl, List.length_range]
      refine ⟨hlen, ?_, ?_⟩
      · intro row hrow
        obtain ⟨t, ht, hrowF⟩ := seqOpt_mem _ _ _ htbl row hrow
        rw [seqOpt_length _ _ _ hrowF, List.length_range]
      · intro t i hT hI
        have houter := seqOpt_getElem? _ _ _ htbl t
        rw [List.getElem?_range hT, Option.some_bind] at houter
        cases hrowt : tbl[t]? with
        | none =>
            have hle : tbl.length ≤ t := List.getElem?_eq_none_iff.mp hrowt
            omega
        | some row =>
            rw [hrowt] at houter
            have hinner : seqOpt
                (fun i => runTrialYears (Ks.getD i 0) (streams i t) fuel)
                (List.range Ks.length) = some row := houter.symm
            have hrlen : row.length = Ks.length := by
              rw [seqOpt_length _ _ _ hinner, List.length_range]
            have hcell := seqOpt_getElem? _ _ _ hinner i
            rw [List.getElem?_range hI, Option.some_bind] at hcell
            cases hq : row[i]? with
            | none =>
                have : row.length ≤ i := List.getElem?_eq_none_iff.mp hq
                omega
            | some q =>
                rw [hq] at hcell
                obtain ⟨o, ho, hqo, hod, hqpos⟩ :=
                  runTrialYears_some (Ks.getD i 0) (streams i t) fuel q hcell.symm
                have htblrow : tbl.getD t [] = row := by
                  rw [List.getD_eq_getElem?_getD, hrowt]
                  rfl
                have hrowq : row.getD i 0 = q := by
                  rw [List.getD_eq_getElem?_getD, hq]
                  rfl
                refine ⟨o, ho, hod, ?_, ?_⟩
                · rw [htblrow, hrowq]
                  exact hqo
                · rw [htblrow, hrowq]
                  exact hqpos

end HundredPrisoners
